import Mathlib

/-!
Shallow embedding of the StudEZ quiz application's Streak Engine
(`src/StreakManager.ts`) and Leaderboard Engine (`leaderboardManager`),
together with theorems checking the specification's claims about them.

Numeric record fields are modelled as `Nat`: the specification's data model
declares every numeric `StreakState` / `LeaderboardEntry` field as
`integer ≥ 0`, and every engine operation only increments fields or resets
them to zero.  Millisecond timestamps and day counts in the expiry check are
modelled as `Int` (they can be negative).  Persistence (the cookie /
localStorage layer) is modelled by threading the stored value explicitly:
each operation takes the current stored state and returns the state it
persists.
-/

namespace StudEZ

/-- The `StreakData` record of `StreakManager.ts`.  `lastQuizDate` is kept as
the raw date string, exactly as stored. -/
structure StreakData where
  currentStreak : Nat
  longestStreak : Nat
  lastQuizDate : String
  totalQuizzesPassed : Nat
  totalQuizzesTaken : Nat
  totalPoints : Nat
  consecutiveCorrectAnswers : Nat
  isInStreak : Bool
deriving Repr, DecidableEq

/-- The all-zero default record: `StreakManager.getStreakData`'s fallback when
no record is stored or parsing fails, and the record written by
`resetStreak`. -/
def defaultStreakData : StreakData :=
  ⟨0, 0, "", 0, 0, 0, 0, false⟩

/-- Embeds `StreakManager.updateStreakForAnswer(isCorrect)`: the per-answer state
machine.  Returns the new (persisted) record and `pointsEarned`.  The three
`let`s mirror the sequential mutations of `currentData` in the source:
increment the consecutive counter, activate the streak at threshold 3, then
award a point while in a streak. -/
def updateStreakForAnswer (isCorrect : Bool) (d0 : StreakData) : StreakData × Nat :=
  if isCorrect then
    let d1 := { d0 with consecutiveCorrectAnswers := d0.consecutiveCorrectAnswers + 1 }
    let d2 :=
      if d1.consecutiveCorrectAnswers ≥ 3 ∧ d1.isInStreak = false then
        { d1 with isInStreak := true, currentStreak := d1.consecutiveCorrectAnswers }
      else d1
    if d2.isInStreak then
      let d3 := { d2 with currentStreak := d2.consecutiveCorrectAnswers,
                          totalPoints := d2.totalPoints + 1 }
      let d4 :=
        if d3.currentStreak > d3.longestStreak then
          { d3 with longestStreak := d3.currentStreak }
        else d3
      (d4, 1)
    else
      (d2, 0)
  else
    ({ d0 with consecutiveCorrectAnswers := 0, currentStreak := 0, isInStreak := false }, 0)

/-- Embeds `StreakManager.updateQuizStats(passed)`: quiz-level aggregation.  `today`
stands for `new Date().toDateString()`. -/
def updateQuizStats (passed : Bool) (today : String) (d : StreakData) : StreakData :=
  { d with totalQuizzesTaken := d.totalQuizzesTaken + 1,
           totalQuizzesPassed := if passed then d.totalQuizzesPassed + 1 else d.totalQuizzesPassed,
           lastQuizDate := today }

/-- Embeds `StreakManager.resetStreak`: persists and returns the all-zero record. -/
def resetStreak : StreakData := defaultStreakData

/-- Embeds `StreakManager.checkStreakExpiry(maxDaysInactive)`.  `dateMs` models
`new Date(string).getTime()`: `none` when the string does not parse to a
valid date (JS `NaN`, which makes the `daysDifference > maxDaysInactive`
comparison false); the empty string never parses.  `nowMs` is the current
time in milliseconds.  Returns the resulting stored record and the boolean
result. -/
def checkStreakExpiry (dateMs : String → Option Int) (nowMs maxDaysInactive : Int)
    (d : StreakData) : StreakData × Bool :=
  if d.lastQuizDate = "" ∨ d.currentStreak = 0 then (d, false)
  else
    match dateMs d.lastQuizDate with
    | none => (d, false)
    | some t =>
      if (nowMs - t).fdiv 86400000 > maxDaysInactive then
        ({ d with currentStreak := 0 }, true)
      else (d, false)

/-- Fold a sequence of per-answer correctness signals through
`updateStreakForAnswer`, accumulating the sum of the returned `pointsEarned`
values. -/
def runAnswers (answers : List Bool) (d : StreakData) : StreakData × Nat :=
  match answers with
  | [] => (d, 0)
  | a :: rest =>
    let step := updateStreakForAnswer a d
    let acc := runAnswers rest step.1
    (acc.1, step.2 + acc.2)

/-- The state reached from the all-zero default after a sequence of answers. -/
def afterAnswers (answers : List Bool) : StreakData :=
  (runAnswers answers defaultStreakData).1

/-- A parsed JSON value, as produced by `JSON.parse`.  Object fields are an
association list with distinct keys. -/
inductive JsonVal where
  | num (n : Int)
  | str (s : String)
  | boolV (b : Bool)
  | nullV
  | arr (elems : List JsonVal)
  | obj (fields : List (String × JsonVal))

/-- Field lookup in a JSON object's association list. -/
def lookupField : List (String × JsonVal) → String → Option JsonVal
  | [], _ => none
  | (k, v) :: rest, name => if k = name then some v else lookupField rest name

/-- JS member access `v.name` on a parsed JSON value: a field of an object,
and `undefined` (`none`) otherwise.  (On `null` the access throws, which the
catch block of the caller turns into the same observable outcome as an
`undefined` field: the validation fails.) -/
def getField : JsonVal → String → Option JsonVal
  | .obj fields, name => lookupField fields name
  | _, _ => none

/-- The check `typeof v.name === 'number'`. -/
def isNumField (v : JsonVal) (name : String) : Bool :=
  match getField v name with
  | some (.num _) => true
  | _ => false

/-- The check `typeof v.name === 'string'`. -/
def isStrField (v : JsonVal) (name : String) : Bool :=
  match getField v name with
  | some (.str _) => true
  | _ => false

/-- The validation of `StreakManager.importStreakData`: the four counters must
be numbers and `lastQuizDate` a string.  No other field is checked. -/
def validStreakImport (v : JsonVal) : Bool :=
  isNumField v "currentStreak" && isNumField v "longestStreak" &&
    isStrField v "lastQuizDate" && isNumField v "totalQuizzesPassed" &&
    isNumField v "totalQuizzesTaken"

/-- Embeds `StreakManager.importStreakData(jsonData)`.  `parsed` is the result of
`JSON.parse(jsonData)` (`none` when parsing throws) and `store` the
previously persisted record.  Returns the record persisted afterwards and the
boolean result: on success the parsed value is persisted as-is, otherwise the
store is untouched. -/
def importStreakData (parsed : Option JsonVal) (store : Option JsonVal) :
    Option JsonVal × Bool :=
  match parsed with
  | none => (store, false)
  | some v => if validStreakImport v then (some v, true) else (store, false)

/-- JS truthiness of a parsed JSON value. -/
def truthy : JsonVal → Bool
  | .num n => n ≠ 0
  | .str s => s ≠ ""
  | .boolV b => b
  | .nullV => false
  | .arr _ => true
  | .obj _ => true

/-- Models `parsed.f || 0` in `getStreakData`: an absent or falsy field
defaults to 0, a number is kept.  A truthy non-number, or a negative number
(outside the specification's `integer ≥ 0` data model), is not representable
in the typed record and yields `none`. -/
def readNumOr0 (f : Option JsonVal) : Option Nat :=
  match f with
  | none => some 0
  | some (.num n) => if 0 ≤ n then some n.toNat else none
  | some v => if truthy v then none else some 0

/-- Models `parsed.f || ''` in `getStreakData`. -/
def readStrOrEmpty (f : Option JsonVal) : Option String :=
  match f with
  | none => some ""
  | some (.str s) => some s
  | some v => if truthy v then none else some ""

/-- Models `parsed.f || false` in `getStreakData`. -/
def readBoolOrFalse (f : Option JsonVal) : Option Bool :=
  match f with
  | none => some false
  | some (.boolV b) => some b
  | some v => if truthy v then none else some false

/-- The defaulting reader of `StreakManager.getStreakData` applied to a
parsed stored record: each field falls back to its zero default when absent
or falsy. -/
def streakOfJson (v : JsonVal) : Option StreakData := do
  let cs ← readNumOr0 (getField v "currentStreak")
  let ls ← readNumOr0 (getField v "longestStreak")
  let lq ← readStrOrEmpty (getField v "lastQuizDate")
  let qp ← readNumOr0 (getField v "totalQuizzesPassed")
  let qt ← readNumOr0 (getField v "totalQuizzesTaken")
  let tp ← readNumOr0 (getField v "totalPoints")
  let cc ← readNumOr0 (getField v "consecutiveCorrectAnswers")
  let inStreak ← readBoolOrFalse (getField v "isInStreak")
  pure ⟨cs, ls, lq, qp, qt, tp, cc, inStreak⟩

/-- The `StreakState` invariant of the specification's data model:
`currentStreak > 0 ⇒ isInStreak`, and
`isInStreak ⇒ currentStreak = consecutiveCorrect`. -/
def streakInvariant (d : StreakData) : Prop :=
  (0 < d.currentStreak → d.isInStreak = true) ∧
  (d.isInStreak = true → d.currentStreak = d.consecutiveCorrectAnswers)

instance (d : StreakData) : Decidable (streakInvariant d) := by
  unfold streakInvariant; infer_instance

/-- The `LeaderboardEntry` record of the leaderboard manager. -/
structure LeaderboardEntry where
  playerName : String
  totalPoints : Nat
  longestStreak : Nat
  totalQuizzesPassed : Nat
  lastActive : String
  rank : Nat
deriving Repr, DecidableEq

/-- The comparator of `updateLeaderboard`'s sort, as a boolean "weakly
precedes" relation: `cmpLe a b` holds exactly when the source comparator
`(a, b) ↦ b.totalPoints - a.totalPoints` (with the `longestStreak` and
`totalQuizzesPassed` tie-breaks) returns a value ≤ 0, i.e. when a stable
sort keeps `a` before `b`. -/
def cmpLe (a b : LeaderboardEntry) : Bool :=
  if a.totalPoints = b.totalPoints then
    if a.longestStreak = b.longestStreak then
      b.totalQuizzesPassed ≤ a.totalQuizzesPassed
    else
      b.longestStreak ≤ a.longestStreak
  else
    b.totalPoints ≤ a.totalPoints

/-- The descending lexicographic order of the specification's §4.2
(`totalPoints`, then `longestStreak`, then `totalQuizzesPassed`), stated on
the sort keys directly. -/
def specKeyGe (a b : LeaderboardEntry) : Prop :=
  b.totalPoints < a.totalPoints ∨
    (a.totalPoints = b.totalPoints ∧
      (b.longestStreak < a.longestStreak ∨
        (a.longestStreak = b.longestStreak ∧ b.totalQuizzesPassed ≤ a.totalQuizzesPassed)))

/-- Overwriting an existing entry's mirrored fields with the submitted stats
and refreshing `lastActive` (`now` stands for `new Date().toISOString()`). -/
def applyStats (s : StreakData) (now : String) (e : LeaderboardEntry) : LeaderboardEntry :=
  { e with totalPoints := s.totalPoints, longestStreak := s.longestStreak,
           totalQuizzesPassed := s.totalQuizzesPassed, lastActive := now }

/-- The fresh entry created for a player not yet on the roster, with the
placeholder rank 0. -/
def newEntry (p now : String) (s : StreakData) : LeaderboardEntry :=
  ⟨p, s.totalPoints, s.longestStreak, s.totalQuizzesPassed, now, 0⟩

/-- Applies `f` to the first entry whose name matches, as `Array.find` plus
in-place mutation does in the source. -/
def updateFirst (p : String) (f : LeaderboardEntry → LeaderboardEntry) :
    List LeaderboardEntry → List LeaderboardEntry
  | [] => []
  | e :: es => if e.playerName = p then f e :: es else e :: updateFirst p f es

/-- The find-or-append step of `updateLeaderboard`: update the first entry
matching the player name, or append a new entry. -/
def upsertEntry (p now : String) (s : StreakData) (board : List LeaderboardEntry) :
    List LeaderboardEntry :=
  if board.any (fun e => e.playerName = p) then updateFirst p (applyStats s now) board
  else board ++ [newEntry p now s]

/-- The re-ranking pass: `entry.rank = index + 1` over the sorted roster,
starting from index `n`. -/
def assignRanks : Nat → List LeaderboardEntry → List LeaderboardEntry
  | _, [] => []
  | n, e :: es => { e with rank := n + 1 } :: assignRanks (n + 1) es

/-- Embeds `LeaderboardManager.updateLeaderboard(streakData)` acting on a loaded
roster: upsert the player's entry, stable-sort by the comparator, re-rank,
and keep only the top 100 entries, which are then persisted.  JS
`Array.prototype.sort` is stable, so it is modelled by the stable
`List.mergeSort`. -/
def updateLeaderboard (p now : String) (s : StreakData) (board : List LeaderboardEntry) :
    List LeaderboardEntry :=
  (assignRanks 0 ((upsertEntry p now s board).mergeSort cmpLe)).take 100

/-- JS `Array.prototype.slice(start, end)` on integer indices: negative
indices count from the end of the array. -/
def jsSlice (l : List LeaderboardEntry) (start endIdx : Int) : List LeaderboardEntry :=
  let len : Int := l.length
  let s := if start < 0 then max (len + start) 0 else min start len
  let e := if endIdx < 0 then max (len + endIdx) 0 else min endIdx len
  (l.drop s.toNat).take (e - s).toNat

/-- Embeds `LeaderboardManager.getPlayersAroundRank(playerRank, range)`:
`slice(max(0, playerRank - range - 1), min(length, playerRank + range))` on
the loaded roster. -/
def getPlayersAroundRank (board : List LeaderboardEntry) (playerRank range : Int) :
    List LeaderboardEntry :=
  jsSlice board (max 0 (playerRank - range - 1))
    (min (board.length : Int) (playerRank + range))

/-- Modelled from the spec's words (claim C7): the contiguous 0-based
half-open slice `[max(0, targetRank - range - 1), min(size, targetRank + range))`
of the roster, empty whenever the upper index does not exceed the lower
one. -/
def specWindow (board : List LeaderboardEntry) (targetRank range : Int) :
    List LeaderboardEntry :=
  let s := max 0 (targetRank - range - 1)
  let e := min (board.length : Int) (targetRank + range)
  (board.drop s.toNat).take (e - s).toNat

/-- The three-component sort key of a roster entry. -/
def entryKey (e : LeaderboardEntry) : Nat × Nat × Nat :=
  (e.totalPoints, e.longestStreak, e.totalQuizzesPassed)

/-- Forget an entry's rank (set it to the placeholder 0), for statements
comparing entries across a re-ranking. -/
def eraseRank (e : LeaderboardEntry) : LeaderboardEntry :=
  { e with rank := 0 }

end StudEZ

namespace StudEZ

/-- Concrete inputs for the streak theorems. -/
def cexExpiryState : StreakData := ⟨3, 3, "d", 0, 0, 0, 3, true⟩

/-- A date-parse function under which only the string `"d"` is a valid date,
at epoch time 0. -/
def cexDateMs : String → Option Int := fun s => if s = "d" then some 0 else none

/-- Eight days in milliseconds. -/
def cexNow : Int := 86400000 * 8

/-- A state that is two correct answers into a pre-streak run. -/
def preActivationState : StreakData := ⟨0, 0, "", 0, 0, 0, 7, false⟩

/-- A payload accepted by the import validation although it encodes a state
violating the streak invariant: `currentStreak = 5` with no `isInStreak`
field (which defaults to `false` on the next read). -/
def importCexPayload : JsonVal :=
  .obj [("currentStreak", .num 5), ("longestStreak", .num 5),
        ("lastQuizDate", .str "x"), ("totalQuizzesPassed", .num 0),
        ("totalQuizzesTaken", .num 0)]

/-- The state `importCexPayload` decodes to on the next `getStreakData`. -/
def importCexDecoded : StreakData := ⟨5, 5, "x", 0, 0, 0, 0, false⟩

/-- A well-formed import payload carrying all eight fields. -/
def importOkPayload : JsonVal :=
  .obj [("currentStreak", .num 3), ("longestStreak", .num 4),
        ("lastQuizDate", .str "Mon Jan 01 2024"), ("totalQuizzesPassed", .num 2),
        ("totalQuizzesTaken", .num 5), ("totalPoints", .num 7),
        ("consecutiveCorrectAnswers", .num 3), ("isInStreak", .boolV true)]

/-- A payload rejected by the import validation: `currentStreak` is a
string. -/
def importBadPayload : JsonVal :=
  .obj [("currentStreak", .str "5"), ("longestStreak", .num 5),
        ("lastQuizDate", .str "x"), ("totalQuizzesPassed", .num 0),
        ("totalQuizzesTaken", .num 0)]

/-- Stats snapshot for players A and B of the tie-break scenario:
100 points, longest streak 10, 5 quizzes passed. -/
def statsAB : StreakData := ⟨0, 10, "", 5, 0, 100, 0, false⟩

/-- Stats snapshot for player C of the tie-break scenario: 150 points,
longest streak 1, 1 quiz passed. -/
def statsC : StreakData := ⟨0, 1, "", 1, 0, 150, 0, false⟩

/-- A low-scoring stats snapshot: 1 point. -/
def statsLow : StreakData := ⟨0, 0, "", 0, 0, 1, 0, false⟩

/-- The roster obtained by upserting A, then B, then C into an empty
roster. -/
def boardABC : List LeaderboardEntry :=
  updateLeaderboard "C" "t3" statsC
    (updateLeaderboard "B" "t2" statsAB (updateLeaderboard "A" "t1" statsAB []))

/-- A roster entry named after `i`, with `i` points. -/
def mkBasicEntry (i : Nat) : LeaderboardEntry := ⟨Nat.repr i, i, 0, 0, "", 0⟩

/-- A full roster of 100 distinct players. -/
def bigBoard : List LeaderboardEntry := (List.range 100).map mkBasicEntry

/-- A 4-entry roster. -/
def cexBoard4 : List LeaderboardEntry := (List.range 4).map mkBasicEntry

/-- A 5-entry roster. -/
def cexBoard5 : List LeaderboardEntry := (List.range 5).map mkBasicEntry

/-- A single ranked entry for player A with 5 points. -/
def frameEntry : LeaderboardEntry := ⟨"A", 5, 0, 0, "", 1⟩

end StudEZ

namespace StudEZ

theorem runAnswers_cons (a : Bool) (rest : List Bool) (d : StreakData) :
    runAnswers (a :: rest) d =
      ((runAnswers rest (updateStreakForAnswer a d).1).1,
        (updateStreakForAnswer a d).2 + (runAnswers rest (updateStreakForAnswer a d).1).2) := by
  simp [runAnswers]

theorem points_step (d : StreakData) (b : Bool) :
    ((updateStreakForAnswer b d).2 = 0 ∨ (updateStreakForAnswer b d).2 = 1) ∧
      (updateStreakForAnswer b d).1.totalPoints = d.totalPoints + (updateStreakForAnswer b d).2 := by
  cases b <;> simp only [updateStreakForAnswer] <;> split_ifs <;> simp

/-- C1: starting from the all-zero default state and feeding the correctness
sequence `[true, true, true, true, false]`: after the 3rd call the streak is
active with `currentStreak = 3` and `totalPoints = 1`; after the 4th,
`currentStreak = 4` and `totalPoints = 2`; after the 5th, `currentStreak = 0`,
`isInStreak = false` and `totalPoints = 2`; and after only 1 or 2 correct
answers, `isInStreak = false`. -/
theorem streak_scenario :
    (afterAnswers [true, true, true]).isInStreak = true ∧
    (afterAnswers [true, true, true]).currentStreak = 3 ∧
    (afterAnswers [true, true, true]).totalPoints = 1 ∧
    (afterAnswers [true, true, true, true]).currentStreak = 4 ∧
    (afterAnswers [true, true, true, true]).totalPoints = 2 ∧
    (afterAnswers [true, true, true, true, false]).currentStreak = 0 ∧
    (afterAnswers [true, true, true, true, false]).isInStreak = false ∧
    (afterAnswers [true, true, true, true, false]).totalPoints = 2 ∧
    (afterAnswers [true]).isInStreak = false ∧
    (afterAnswers [true, true]).isInStreak = false := by
  decide

/-- C2: each `updateStreakForAnswer` call returns `pointsEarned ∈ {0, 1}` and
adds exactly `pointsEarned` to `totalPoints`; hence over any sequence of
calls `totalPoints` grows by exactly the sum of the returned values, and is
non-decreasing along every prefix of the sequence. -/
theorem points_accounting :
    (∀ (d : StreakData) (b : Bool),
        ((updateStreakForAnswer b d).2 = 0 ∨ (updateStreakForAnswer b d).2 = 1) ∧
          (updateStreakForAnswer b d).1.totalPoints
            = d.totalPoints + (updateStreakForAnswer b d).2) ∧
    (∀ (answers : List Bool) (d : StreakData),
        (runAnswers answers d).1.totalPoints = d.totalPoints + (runAnswers answers d).2) ∧
    (∀ (answers tail : List Bool) (d : StreakData),
        (runAnswers answers d).1.totalPoints ≤ (runAnswers (answers ++ tail) d).1.totalPoints) := by
  have hsum : ∀ (answers : List Bool) (d : StreakData),
      (runAnswers answers d).1.totalPoints = d.totalPoints + (runAnswers answers d).2 := by
    intro answers
    induction answers with
    | nil => intro d; simp [runAnswers]
    | cons a rest ih =>
      intro d
      rw [runAnswers_cons]
      simp only
      rw [ih, (points_step d a).2]
      omega
  refine ⟨points_step, hsum, ?_⟩
  intro answers tail
  induction answers with
  | nil =>
    intro d
    simp only [List.nil_append, runAnswers]
    rw [hsum tail d]
    omega
  | cons a rest ih =>
    intro d
    rw [List.cons_append, runAnswers_cons, runAnswers_cons]
    exact ih (updateStreakForAnswer a d).1

/-- C9: from any state with `isInStreak = false` in which one more correct
answer brings `consecutiveCorrectAnswers` to at least 3 (including counters
already at or above 3), `updateStreakForAnswer true` activates the streak:
`isInStreak` becomes true, `currentStreak` becomes the new consecutive count
(which may exceed 3), and 1 point is earned on that same call. -/
theorem streak_activation (s : StreakData)
    (h1 : s.isInStreak = false)
    (h2 : 3 ≤ s.consecutiveCorrectAnswers + 1) :
    (updateStreakForAnswer true s).1.isInStreak = true ∧
    (updateStreakForAnswer true s).1.currentStreak = s.consecutiveCorrectAnswers + 1 ∧
    (updateStreakForAnswer true s).1.consecutiveCorrectAnswers
      = s.consecutiveCorrectAnswers + 1 ∧
    (updateStreakForAnswer true s).2 = 1 ∧
    (updateStreakForAnswer true s).1.totalPoints = s.totalPoints + 1 := by
  simp only [updateStreakForAnswer]
  split_ifs with hact hstreak hlong hlong' <;> simp_all

theorem streak_activation_wit :
    preActivationState.isInStreak = false ∧
    3 ≤ preActivationState.consecutiveCorrectAnswers + 1 ∧
    (updateStreakForAnswer true preActivationState).1.isInStreak = true ∧
    (updateStreakForAnswer true preActivationState).1.currentStreak = 8 ∧
    (updateStreakForAnswer true preActivationState).2 = 1 := by
  have h := streak_activation preActivationState (by decide) (by decide)
  exact ⟨by decide, by decide, h.1, h.2.1, h.2.2.2.1⟩

/-- C3 is false as stated: `checkStreakExpiry` does not preserve the streak
invariant.  On a state in a valid 3-streak whose last quiz was 8 days ago, an
expiry check with `maxDaysInactive = 7` zeroes `currentStreak` only, leaving
`isInStreak = true` and `consecutiveCorrectAnswers = 3`, so afterwards
`isInStreak = true` but `currentStreak ≠ consecutiveCorrectAnswers`. -/
theorem invariant_cex :
    streakInvariant cexExpiryState ∧
    (checkStreakExpiry cexDateMs cexNow 7 cexExpiryState).2 = true ∧
    ¬ streakInvariant (checkStreakExpiry cexDateMs cexNow 7 cexExpiryState).1 := by
  decide

/-- C3 (amended): `updateStreakForAnswer`, `updateQuizStats` and `resetStreak`
preserve the streak invariant, but `checkStreakExpiry` and `importStreakData`
need not: the expiry check zeroes only `currentStreak` (see the
counterexample), and the import validation checks field kinds only, so it
accepts and persists a record that decodes to an invariant-violating state
(here: `currentStreak = 5` with `isInStreak` absent, hence false). -/
theorem invariant_ops_amended :
    (∀ (d : StreakData) (b : Bool),
        streakInvariant d → streakInvariant (updateStreakForAnswer b d).1) ∧
    (∀ (d : StreakData) (p : Bool) (today : String),
        streakInvariant d → streakInvariant (updateQuizStats p today d)) ∧
    streakInvariant resetStreak ∧
    (importStreakData (some importCexPayload) none = (some importCexPayload, true) ∧
      streakOfJson importCexPayload = some importCexDecoded ∧
      ¬ streakInvariant importCexDecoded) := by
  refine ⟨?_, ?_, by decide, rfl, rfl, by decide⟩
  · intro d b h
    obtain ⟨h1, h2⟩ := h
    cases b <;> simp only [updateStreakForAnswer] <;> split_ifs <;>
      constructor <;> simp_all [streakInvariant]
  · intro d p today h
    obtain ⟨h1, h2⟩ := h
    cases p <;> exact ⟨h1, h2⟩

theorem invariant_ops_amended_wit :
    streakInvariant preActivationState ∧
    streakInvariant (updateStreakForAnswer true preActivationState).1 ∧
    streakInvariant (updateQuizStats true "Mon" preActivationState) := by
  refine ⟨by decide, ?_, ?_⟩
  · exact invariant_ops_amended.1 preActivationState true (by decide)
  · exact invariant_ops_amended.2.1 preActivationState true "Mon" (by decide)

/-- C6: `checkStreakExpiry` returns true exactly when `currentStreak > 0` and
the floored whole-day difference between now and the parsed `lastQuizDate`
exceeds `maxDaysInactive`; in that case it persists the state with
`currentStreak` zeroed and every other field unchanged, and otherwise it
leaves the state untouched and returns false.  (The hypothesis records that
the empty date string never parses to a valid date.) -/
theorem expiry_frame (dateMs : String → Option Int) (nowMs maxDays : Int) (s : StreakData)
    (hE : dateMs "" = none) :
    ((checkStreakExpiry dateMs nowMs maxDays s).2 = true ↔
      (0 < s.currentStreak ∧ ∃ t, dateMs s.lastQuizDate = some t ∧
        maxDays < (nowMs - t).fdiv 86400000)) ∧
    ((checkStreakExpiry dateMs nowMs maxDays s).2 = true →
      (checkStreakExpiry dateMs nowMs maxDays s).1 = { s with currentStreak := 0 }) ∧
    ((checkStreakExpiry dateMs nowMs maxDays s).2 = false →
      (checkStreakExpiry dateMs nowMs maxDays s).1 = s) := by
  by_cases hg : s.lastQuizDate = "" ∨ s.currentStreak = 0
  · unfold checkStreakExpiry
    rw [if_pos hg]
    refine ⟨⟨fun h => by simp at h, ?_⟩, fun h => by simp at h, fun _ => rfl⟩
    rintro ⟨hcs, t, ht, -⟩
    rcases hg with hempty | hzero
    · rw [hempty, hE] at ht
      exact Option.noConfusion ht
    · omega
  · push_neg at hg
    obtain ⟨hne, hcs⟩ := hg
    unfold checkStreakExpiry
    rw [if_neg (by push_neg; exact ⟨hne, hcs⟩)]
    rcases hm : dateMs s.lastQuizDate with _ | t <;> simp only [hm]
    · refine ⟨⟨fun h => by simp at h, ?_⟩, fun h => by simp at h, fun _ => trivial⟩
      rintro ⟨-, u, hu, -⟩
      exact Option.noConfusion hu
    · by_cases hd : (nowMs - t).fdiv 86400000 > maxDays
      · rw [if_pos hd]
        refine ⟨⟨fun _ => ?_, fun _ => rfl⟩,
          fun _ => rfl, fun h => by simp at h⟩
        exact ⟨by omega, t, rfl, hd⟩
      · rw [if_neg hd]
        refine ⟨⟨fun h => by simp at h, ?_⟩, fun h => by simp at h, fun _ => rfl⟩
        rintro ⟨-, u, hu, hdu⟩
        cases hu
        exact absurd hdu hd

theorem expiry_frame_wit :
    cexDateMs "" = none ∧
    (checkStreakExpiry cexDateMs cexNow 7 cexExpiryState).2 = true ∧
    (checkStreakExpiry cexDateMs cexNow 7 cexExpiryState).1 =
      { cexExpiryState with currentStreak := 0 } := by
  have h := expiry_frame cexDateMs cexNow 7 cexExpiryState (by decide)
  have h2 := h.1.mpr ⟨by decide, 0, by decide, by decide⟩
  exact ⟨by decide, h2, h.2.1 h2⟩

/-- C8: the import succeeds, returning true and persisting the parsed record
exactly as given, precisely when the text parsed as JSON and the five
required fields have the right primitive kinds; in every other case it
returns false and the previously persisted record is untouched. -/
theorem import_validation (parsed store : Option JsonVal) :
    ((importStreakData parsed store).2 = true ↔
      ∃ v, parsed = some v ∧ validStreakImport v = true) ∧
    (∀ v, parsed = some v → validStreakImport v = true →
      (importStreakData parsed store).1 = some v) ∧
    ((importStreakData parsed store).2 = false →
      (importStreakData parsed store).1 = store) := by
  cases parsed with
  | none =>
    refine ⟨⟨fun h => by simp [importStreakData] at h, fun ⟨v, hv, _⟩ => by simp_all⟩,
      fun v hv _ => by simp_all, fun _ => rfl⟩
  | some v =>
    by_cases hv : validStreakImport v = true
    · refine ⟨⟨fun _ => ⟨v, rfl, hv⟩, fun _ => by simp [importStreakData, hv]⟩,
        fun u hu _ => ?_, fun hfalse => ?_⟩
      · cases hu
        simp [importStreakData, hv]
      · simp [importStreakData, hv] at hfalse
    · refine ⟨⟨fun htrue => ?_, fun ⟨u, hu, huv⟩ => ?_⟩, fun u hu huv => ?_, fun _ => ?_⟩
      · simp [importStreakData, hv] at htrue
      · cases hu
        exact absurd huv hv
      · cases hu
        exact absurd huv hv
      · simp [importStreakData, hv]

theorem import_validation_wit :
    (importStreakData (some importOkPayload) none).2 = true ∧
    (importStreakData (some importOkPayload) none).1 = some importOkPayload ∧
    (importStreakData (some importBadPayload) (some importOkPayload)).1
      = some importOkPayload := by
  have h1 := import_validation (some importOkPayload) none
  have h2 := import_validation (some importBadPayload) (some importOkPayload)
  exact ⟨h1.1.mpr ⟨importOkPayload, rfl, rfl⟩, h1.2.1 importOkPayload rfl rfl, h2.2.2 rfl⟩

theorem cmpLe_iff (a b : LeaderboardEntry) : cmpLe a b = true ↔ specKeyGe a b := by
  by_cases h1 : a.totalPoints = b.totalPoints <;>
    by_cases h2 : a.longestStreak = b.longestStreak <;>
      simp [cmpLe, specKeyGe, h1, h2] <;> omega

theorem cmpLe_total (a b : LeaderboardEntry) : cmpLe a b || cmpLe b a := by
  rw [Bool.or_eq_true, cmpLe_iff, cmpLe_iff]
  unfold specKeyGe
  omega

theorem cmpLe_trans (a b c : LeaderboardEntry) :
    cmpLe a b → cmpLe b c → cmpLe a c := by
  simp only [cmpLe_iff]
  unfold specKeyGe
  omega

theorem cmpLe_of_key_eq {a b : LeaderboardEntry} (h : entryKey a = entryKey b) :
    cmpLe a b = true := by
  rw [cmpLe_iff]
  unfold entryKey at h
  simp only [Prod.mk.injEq] at h
  unfold specKeyGe
  omega

theorem assignRanks_length (n : Nat) (l : List LeaderboardEntry) :
    (assignRanks n l).length = l.length := by
  induction l generalizing n with
  | nil => rfl
  | cons e es ih => simp [assignRanks, ih]

theorem assignRanks_get (l : List LeaderboardEntry) :
    ∀ (n i : Nat) (h : i < (assignRanks n l).length),
      ((assignRanks n l).get ⟨i, h⟩).rank = n + i + 1 := by
  induction l with
  | nil => intro n i h; simp [assignRanks] at h
  | cons e es ih =>
    intro n i h
    cases i with
    | zero => simp [assignRanks]
    | succ j =>
      have hj : j < (assignRanks (n + 1) es).length := by
        simpa [assignRanks, Nat.succ_lt_succ_iff] using h
      have := ih (n + 1) j hj
      simpa [assignRanks, Nat.add_assoc, Nat.add_comm, Nat.add_left_comm] using this

theorem mem_assignRanks {b : LeaderboardEntry} :
    ∀ {n : Nat} {l : List LeaderboardEntry}, b ∈ assignRanks n l →
      ∃ a ∈ l, ∃ k : Nat, b = { a with rank := k } := by
  intro n l
  induction l generalizing n with
  | nil => intro h; simp [assignRanks] at h
  | cons e es ih =>
    intro h
    rcases List.mem_cons.mp h with hb | hb
    · exact ⟨e, List.mem_cons_self e es, n + 1, hb⟩
    · obtain ⟨a, ha, k, hk⟩ := ih hb
      exact ⟨a, List.mem_cons_of_mem e ha, k, hk⟩

theorem assignRanks_pairwise {l : List LeaderboardEntry}
    (h : l.Pairwise specKeyGe) (n : Nat) :
    (assignRanks n l).Pairwise specKeyGe := by
  induction l generalizing n with
  | nil => simp [assignRanks]
  | cons e es ih =>
    rw [List.pairwise_cons] at h
    simp only [assignRanks, List.pairwise_cons]
    refine ⟨?_, ih h.2 (n + 1)⟩
    intro b hb
    obtain ⟨a, ha, k, rfl⟩ := mem_assignRanks hb
    have := h.1 a ha
    simpa [specKeyGe] using this

theorem updateFirst_length (p : String) (f : LeaderboardEntry → LeaderboardEntry) :
    ∀ l : List LeaderboardEntry, (updateFirst p f l).length = l.length := by
  intro l
  induction l with
  | nil => rfl
  | cons e es ih =>
    unfold updateFirst
    split_ifs <;> simp [ih]

theorem upsertEntry_length (p now : String) (s : StreakData)
    (board : List LeaderboardEntry) :
    (upsertEntry p now s board).length =
      if board.any (fun e => e.playerName = p) then board.length else board.length + 1 := by
  unfold upsertEntry
  split_ifs with h <;> simp [updateFirst_length]

theorem mem_updateFirst {p : String} {f : LeaderboardEntry → LeaderboardEntry}
    {b : LeaderboardEntry} :
    ∀ {l : List LeaderboardEntry}, b ∈ updateFirst p f l →
      b ∈ l ∨ ∃ a ∈ l, a.playerName = p ∧ b = f a := by
  intro l
  induction l with
  | nil => intro h; simp [updateFirst] at h
  | cons e es ih =>
    intro h
    unfold updateFirst at h
    split_ifs at h with he
    · rcases List.mem_cons.mp h with hb | hb
      · exact Or.inr ⟨e, List.mem_cons_self e es, he, hb⟩
      · exact Or.inl (List.mem_cons_of_mem e hb)
    · rcases List.mem_cons.mp h with hb | hb
      · exact Or.inl (hb ▸ List.mem_cons_self e es)
      · rcases ih hb with hb2 | ⟨a, ha, hap, hfa⟩
        · exact Or.inl (List.mem_cons_of_mem e hb2)
        · exact Or.inr ⟨a, List.mem_cons_of_mem e ha, hap, hfa⟩

theorem mem_upsertEntry {b : LeaderboardEntry} {p now : String} {s : StreakData}
    {board : List LeaderboardEntry} (h : b ∈ upsertEntry p now s board) :
    b ∈ board ∨ b.playerName = p := by
  unfold upsertEntry at h
  split_ifs at h with hany
  · rcases mem_updateFirst h with hb | ⟨a, _, hap, rfl⟩
    · exact Or.inl hb
    · exact Or.inr (by simpa [applyStats] using hap)
  · rcases List.mem_append.mp h with hb | hb
    · exact Or.inl hb
    · right
      rw [List.mem_singleton.mp hb]
      rfl

theorem updateLeaderboard_length (p now : String) (s : StreakData)
    (board : List LeaderboardEntry) :
    (updateLeaderboard p now s board).length =
      min 100 (if board.any (fun e => e.playerName = p) then board.length
               else board.length + 1) := by
  unfold updateLeaderboard
  rw [List.length_take, assignRanks_length, List.length_mergeSort, upsertEntry_length]

/-- C4: after any `updateLeaderboard` call the resulting roster is sorted by
the descending (`totalPoints`, `longestStreak`, `totalQuizzesPassed`)
lexicographic order; the entry at 0-based position `i` carries rank `i + 1`
(so ranks are exactly the dense sequence `1..N` in sort order, each used
once, and a smaller rank implies a sort key that is greater or equal); the
roster length is the upserted length capped at 100, entries beyond position
100 in sorted order being dropped; in particular upserting a 101st distinct
player into a full 100-entry roster leaves exactly 100 entries. -/
theorem leaderboard_shape (p now : String) (s : StreakData)
    (board : List LeaderboardEntry) :
    (updateLeaderboard p now s board).Pairwise specKeyGe ∧
    (∀ (i : Nat) (h : i < (updateLeaderboard p now s board).length),
        ((updateLeaderboard p now s board).get ⟨i, h⟩).rank = i + 1) ∧
    (updateLeaderboard p now s board).length =
      min 100 (if board.any (fun e => e.playerName = p) then board.length
               else board.length + 1) ∧
    (board.any (fun e => e.playerName = p) = false → board.length = 100 →
      (updateLeaderboard p now s board).length = 100) := by
  refine ⟨?_, ?_, updateLeaderboard_length p now s board, ?_⟩
  · have hs := List.sorted_mergeSort cmpLe_trans cmpLe_total (upsertEntry p now s board)
    have hp : ((upsertEntry p now s board).mergeSort cmpLe).Pairwise specKeyGe :=
      hs.imp (fun hab => (cmpLe_iff _ _).mp hab)
    exact (assignRanks_pairwise hp 0).sublist (List.take_sublist _ _)
  · intro i h
    have hlt : i < (assignRanks 0 ((upsertEntry p now s board).mergeSort cmpLe)).length := by
      have := h
      unfold updateLeaderboard at this
      rw [List.length_take] at this
      omega
    have hget :
        (updateLeaderboard p now s board).get ⟨i, h⟩ =
          (assignRanks 0 ((upsertEntry p now s board).mergeSort cmpLe)).get ⟨i, hlt⟩ := by
      unfold updateLeaderboard
      simp [List.getElem_take]
    rw [hget]
    simpa using assignRanks_get _ 0 i hlt
  · intro hany hlen
    rw [updateLeaderboard_length, hany, hlen]
    rfl

theorem leaderboard_shape_wit :
    bigBoard.any (fun e => e.playerName = "z") = false ∧
    bigBoard.length = 100 ∧
    (updateLeaderboard "z" "t" statsLow bigBoard).length = 100 ∧
    ((updateLeaderboard "z" "t" statsLow bigBoard).get
        ⟨0, by rw [updateLeaderboard_length]; decide⟩).rank = 0 + 1 := by
  refine ⟨by decide, rfl, ?_, ?_⟩
  · exact (leaderboard_shape "z" "t" statsLow bigBoard).2.2.2 (by decide) rfl
  · exact (leaderboard_shape "z" "t" statsLow bigBoard).2.1 0 _

theorem eraseRank_rank (e : LeaderboardEntry) (n : Nat) :
    eraseRank { e with rank := n } = eraseRank e := rfl

theorem mergeSort_filter_key (u : List LeaderboardEntry) (k : Nat × Nat × Nat) :
    (u.mergeSort cmpLe).filter (fun e => entryKey e = k)
      = u.filter (fun e => entryKey e = k) := by
  have hc : (u.filter (fun e => entryKey e = k)).Pairwise
      (fun a b => cmpLe a b = true) := by
    apply List.pairwise_of_forall_mem_list
    intro a ha b hb
    have hak := (List.mem_filter.mp ha).2
    have hbk := (List.mem_filter.mp hb).2
    simp only [decide_eq_true_eq] at hak hbk
    exact cmpLe_of_key_eq (hak.trans hbk.symm)
  have h1 : List.Sublist (u.filter (fun e => entryKey e = k)) (u.mergeSort cmpLe) :=
    List.sublist_mergeSort cmpLe_trans cmpLe_total hc (List.filter_sublist u)
  have h2 : List.Sublist (u.filter (fun e => entryKey e = k))
      ((u.mergeSort cmpLe).filter (fun e => entryKey e = k)) := by
    have h3 := h1.filter (fun e => entryKey e = k)
    rwa [List.filter_eq_self.mpr (fun a ha => (List.mem_filter.mp ha).2)] at h3
  have hperm := (List.mergeSort_perm u cmpLe).filter (fun e => entryKey e = k)
  exact (h2.eq_of_length hperm.length_eq.symm).symm

theorem assignRanks_filter_map (k : Nat × Nat × Nat) :
    ∀ (n : Nat) (l : List LeaderboardEntry),
      ((assignRanks n l).filter (fun e => entryKey e = k)).map eraseRank
        = (l.filter (fun e => entryKey e = k)).map eraseRank := by
  intro n l
  induction l generalizing n with
  | nil => rfl
  | cons e es ih =>
    simp only [assignRanks, List.filter_cons]
    have hkey : entryKey { e with rank := n + 1 } = entryKey e := rfl
    by_cases hk : entryKey e = k
    · simp [hkey, hk, eraseRank_rank, ih]
    · simp [hkey, hk, ih]

theorem filter_take_append (q : LeaderboardEntry → Bool) (l : List LeaderboardEntry)
    (n : Nat) :
    l.filter q = (l.take n).filter q ++ (l.drop n).filter q := by
  rw [← List.filter_append, List.take_append_drop]

unseal List.merge List.mergeSort

/-- C5: the sort inside `updateLeaderboard` is stable — among entries with
the same (`totalPoints`, `longestStreak`, `totalQuizzesPassed`) key, the
produced roster preserves the pre-sort order (the roster's per-key entries,
with ranks forgotten, form a prefix of the pre-sort per-key entries); in
particular upserting A(100,10,5), then B(100,10,5), then C(150,1,1) into an
empty roster yields the order C, A, B with ranks 1, 2, 3. -/
theorem stable_tiebreak :
    (∀ (p now : String) (s : StreakData) (board : List LeaderboardEntry)
        (k : Nat × Nat × Nat),
      ∃ rest,
        ((upsertEntry p now s board).filter (fun e => entryKey e = k)).map eraseRank
          = ((updateLeaderboard p now s board).filter
              (fun e => entryKey e = k)).map eraseRank ++ rest) ∧
    boardABC = [⟨"C", 150, 1, 1, "t3", 1⟩, ⟨"A", 100, 10, 5, "t1", 2⟩,
                ⟨"B", 100, 10, 5, "t2", 3⟩] := by
  constructor
  · intro p now s board k
    refine ⟨(((assignRanks 0 ((upsertEntry p now s board).mergeSort cmpLe)).drop 100).filter
        (fun e => entryKey e = k)).map eraseRank, ?_⟩
    simp only [updateLeaderboard]
    conv_lhs => rw [← mergeSort_filter_key (upsertEntry p now s board) k,
      ← assignRanks_filter_map k 0]
    rw [filter_take_append _ (assignRanks 0 ((upsertEntry p now s board).mergeSort cmpLe)) 100,
      List.map_append]
  · decide

/-- C10: `updateLeaderboard` changes at most the submitted player's entry:
every entry of the produced roster whose name differs from the submitted
player coincides, up to its recomputed rank, with an entry already on the
input roster (name, points, streak, quizzes-passed and `lastActive` all
unchanged). -/
theorem leaderboard_frame (p now : String) (s : StreakData)
    (board : List LeaderboardEntry) (e : LeaderboardEntry)
    (he : e ∈ updateLeaderboard p now s board) (hne : e.playerName ≠ p) :
    eraseRank e ∈ board.map eraseRank := by
  unfold updateLeaderboard at he
  have h1 : e ∈ assignRanks 0 ((upsertEntry p now s board).mergeSort cmpLe) :=
    List.take_subset _ _ he
  obtain ⟨a, ha, k, rfl⟩ := mem_assignRanks h1
  have ha2 : a ∈ upsertEntry p now s board := List.mem_mergeSort.mp ha
  rcases mem_upsertEntry ha2 with hb | hp
  · rw [eraseRank_rank]
    exact List.mem_map_of_mem eraseRank hb
  · exact absurd hp hne

theorem leaderboard_frame_wit :
    frameEntry ∈ updateLeaderboard "B" "t" statsLow [frameEntry] ∧
    frameEntry.playerName ≠ "B" ∧
    eraseRank frameEntry ∈ [frameEntry].map eraseRank := by
  refine ⟨by decide, by decide, ?_⟩
  exact leaderboard_frame "B" "t" statsLow [frameEntry] frameEntry (by decide) (by decide)

/-- C7 is false as stated: with a negative `range`, `playerRank + range` can
be negative, and JS `slice` then counts that end index from the end of the
array instead of producing the empty window the claimed formula describes.
On a 4-entry roster, `getPlayersAroundRank(0, -2)` computes
`slice(1, -2) = slice(1, 2)`, one entry, while the claimed half-open window
`[1, -2)` is empty. -/
theorem around_rank_cex :
    getPlayersAroundRank cexBoard4 0 (-2) ≠ specWindow cexBoard4 0 (-2) := by
  decide

/-- C7 (amended): whenever `targetRank + range ≥ 0` (in particular for every
non-negative `range`), `getPlayersAroundRank` returns exactly the contiguous
slice `[max(0, targetRank - range - 1), min(size, targetRank + range))` of
the roster; with `targetRank = 1` and `range = 2` on a 5-entry roster that is
the first three entries (ranks 1–3), and with `targetRank = 0` (unranked
player) and `range ≥ 0` it is a leading slice of the roster. -/
theorem around_rank_window :
    (∀ (board : List LeaderboardEntry) (targetRank range : Int),
        0 ≤ targetRank + range →
          getPlayersAroundRank board targetRank range = specWindow board targetRank range) ∧
    (∀ board : List LeaderboardEntry, board.length = 5 →
        getPlayersAroundRank board 1 2 = board.take 3) ∧
    (∀ (board : List LeaderboardEntry) (range : Int), 0 ≤ range →
        getPlayersAroundRank board 0 range = board.take range.toNat) := by
  have hgen : ∀ (board : List LeaderboardEntry) (targetRank range : Int),
      0 ≤ targetRank + range →
        getPlayersAroundRank board targetRank range = specWindow board targetRank range := by
    intro board targetRank range h
    unfold getPlayersAroundRank jsSlice specWindow
    simp only
    have hL : (0 : Int) ≤ (board.length : Int) := Int.natCast_nonneg _
    have hst0 : (0 : Int) ≤ max 0 (targetRank - range - 1) := le_max_left _ _
    have hen0 : (0 : Int) ≤ min (board.length : Int) (targetRank + range) :=
      le_min hL h
    rw [if_neg (not_lt.mpr hst0), if_neg (not_lt.mpr hen0),
      min_eq_left (min_le_left (board.length : Int) (targetRank + range))]
    by_cases hsl : max 0 (targetRank - range - 1) ≤ (board.length : Int)
    · rw [min_eq_left hsl]
    · push_neg at hsl
      rw [min_eq_right hsl.le]
      have h1 : board.length ≤ (max 0 (targetRank - range - 1)).toNat := by omega
      rw [Int.toNat_ofNat, List.drop_length, List.drop_eq_nil_of_le h1]
      simp
  refine ⟨hgen, ?_, ?_⟩
  · intro board h5
    rw [hgen board 1 2 (by omega)]
    unfold specWindow
    simp only [h5]
    norm_num
    rfl
  · intro board range hr
    rw [hgen board 0 range (by omega)]
    unfold specWindow
    simp only [zero_add]
    rw [max_eq_left (by omega : (0:Int) - range - 1 ≤ 0)]
    simp only [Int.toNat_zero, List.drop_zero, sub_zero]
    by_cases hrl : range ≤ (board.length : Int)
    · rw [min_eq_right hrl]
    · push_neg at hrl
      rw [min_eq_left hrl.le, Int.toNat_ofNat, List.take_length,
        List.take_of_length_le (by omega : board.length ≤ range.toNat)]

theorem around_rank_window_wit :
    getPlayersAroundRank cexBoard5 1 2 = specWindow cexBoard5 1 2 ∧
    getPlayersAroundRank cexBoard5 1 2 = cexBoard5.take 3 ∧
    getPlayersAroundRank cexBoard5 0 3 = cexBoard5.take ((3 : Int)).toNat := by
  exact ⟨around_rank_window.1 cexBoard5 1 2 (by decide),
    around_rank_window.2.1 cexBoard5 rfl,
    around_rank_window.2.2 cexBoard5 3 (by decide)⟩

end StudEZ
